import Mathlib

/-!
Shallow embedding of the resilient request-dispatch core of the
cs2-price-database repository (files `proxy_manager.py`, `steam_api.py`,
`collect_prices.py`), together with theorems settling the frozen claims
about its specification.

Times and durations are modelled as rationals (`ℚ`); Python `int` fields
are modelled as `Int` (they are unbounded in Python).  Network effects are
modelled by passing the outcome of each attempted HTTP call explicitly.
-/

/-- `ProxyInfo` from `proxy_manager.py` (lines 22-48): one relay record. -/
structure ProxyInfo where
  host : String
  port : Int
  username : Option String := none
  password : Option String := none
  protocol : String := "http"
  is_healthy : Bool := true
  last_check : Option ℚ := none
  response_time : ℚ := 0
  failure_count : Int := 0
  success_count : Int := 0
deriving Repr, DecidableEq

/-- The mutable `ProxyManager` state (lines 51-74): the relay list, the
rotating index, the unhealthiness threshold and the enabled flag. -/
structure ProxyManager where
  proxies : List ProxyInfo
  current_proxy_index : Nat := 0
  max_failures : Int := 3
  use_proxies : Bool := false
deriving Repr, DecidableEq

/-- The healthy sub-list `[p for p in self.proxies if p.is_healthy]`. -/
def healthyProxies (m : ProxyManager) : List ProxyInfo :=
  m.proxies.filter (fun p => p.is_healthy)

/-- `ProxyManager.get_current_proxy` (lines 314-329): filter the healthy
relays, clamp a stale index back to 0, return the selected relay (and the
manager, whose index field the Python method may have clamped in place). -/
def get_current_proxy (m : ProxyManager) : Option ProxyInfo × ProxyManager :=
  if !m.use_proxies || m.proxies.isEmpty then (none, m)
  else
    let healthy_proxies := m.proxies.filter (fun p => p.is_healthy)
    if healthy_proxies.isEmpty then (none, m)
    else
      let m' := if healthy_proxies.length ≤ m.current_proxy_index then
          { m with current_proxy_index := 0 } else m
      (healthy_proxies.get? m'.current_proxy_index, m')

/-- `ProxyManager.rotate_proxy` (lines 331-344): advance the rotating index
modulo the healthy-subset size; no-op when relays are disabled, the list is
empty, or at most one relay is healthy.  (The trailing
`get_current_proxy` call in the Python method is only for logging and
cannot change state there: the fresh index is already in bounds.) -/
def rotate_proxy (m : ProxyManager) : ProxyManager :=
  if !m.use_proxies || m.proxies.isEmpty then m
  else
    let healthy_proxies := m.proxies.filter (fun p => p.is_healthy)
    if healthy_proxies.length ≤ 1 then m
    else
      { m with current_proxy_index :=
          (m.current_proxy_index + 1) % healthy_proxies.length }

/-- Field updates of `ProxyManager.mark_proxy_failed` (lines 346-355) on the
relay record itself. -/
def markFailedRecord (max_failures : Int) (now : ℚ) (p : ProxyInfo) : ProxyInfo :=
  let p := { p with failure_count := p.failure_count + 1, last_check := some now }
  if max_failures ≤ p.failure_count then { p with is_healthy := false } else p

/-- `ProxyManager.mark_proxy_failed` (lines 346-355).  Python mutates the
aliased `ProxyInfo` object; here the relay is addressed by its index `i` in
`m.proxies`.  When the failure streak reaches the threshold the relay is
marked unhealthy and the manager rotates. -/
def mark_proxy_failed (m : ProxyManager) (i : Nat) (now : ℚ) : ProxyManager :=
  match m.proxies.get? i with
  | none => m
  | some p =>
    let p' := markFailedRecord m.max_failures now p
    let m' := { m with proxies := m.proxies.set i p' }
    if m.max_failures ≤ p.failure_count + 1 then rotate_proxy m' else m'

/-- Field updates of `ProxyManager.mark_proxy_success` (lines 357-364):
bump the success count, record latency and check time, and decrement the
failure streak by one (floored at 0).  It never touches `is_healthy`. -/
def markSuccessRecord (now response_time : ℚ) (p : ProxyInfo) : ProxyInfo :=
  let p := { p with success_count := p.success_count + 1,
                    response_time := response_time, last_check := some now }
  if 0 < p.failure_count then
    { p with failure_count := max 0 (p.failure_count - 1) }
  else p

/-- `ProxyManager.mark_proxy_success` (lines 357-364), addressed by index. -/
def mark_proxy_success (m : ProxyManager) (i : Nat) (now response_time : ℚ) :
    ProxyManager :=
  match m.proxies.get? i with
  | none => m
  | some p => { m with proxies := m.proxies.set i (markSuccessRecord now response_time p) }

/-- Outcome of the probe HTTP call inside `ProxyManager.test_proxy`: an HTTP
status, or an exception (connect failure, timeout, protocol error). -/
inductive ProbeOutcome where
  | status (code : Int)
  | exc
deriving Repr, DecidableEq

/-- `ProxyManager.test_proxy` (lines 366-395): one probe through relay `i`.
Status 200 reports success (via `mark_proxy_success`); any other status or
any exception reports failure (via `mark_proxy_failed`). -/
def test_proxy (m : ProxyManager) (i : Nat) (outcome : ProbeOutcome)
    (now response_time : ℚ) : Bool × ProxyManager :=
  match outcome with
  | ProbeOutcome.status code =>
    if code = 200 then (true, mark_proxy_success m i now response_time)
    else (false, mark_proxy_failed m i now)
  | ProbeOutcome.exc => (false, mark_proxy_failed m i now)

/-- Healthy relays paired with their index in `m.proxies`; models Python's
aliasing of `ProxyInfo` objects so the dispatcher can report against the
exact relay it selected. -/
def enumHealthy (i : Nat) : List ProxyInfo → List (Nat × ProxyInfo)
  | [] => []
  | p :: ps =>
    if p.is_healthy then (i, p) :: enumHealthy (i + 1) ps
    else enumHealthy (i + 1) ps

/-- `get_current_proxy`, returning the selected relay together with its
index in `m.proxies` (see `get_current_proxy_pair_fst`: it selects exactly
the relay `get_current_proxy` selects). -/
def get_current_proxy_pair (m : ProxyManager) :
    Option (Nat × ProxyInfo) × ProxyManager :=
  if !m.use_proxies || m.proxies.isEmpty then (none, m)
  else
    let healthy := enumHealthy 0 m.proxies
    if healthy.isEmpty then (none, m)
    else
      let m' := if healthy.length ≤ m.current_proxy_index then
          { m with current_proxy_index := 0 } else m
      (healthy.get? m'.current_proxy_index, m')

/-- First occurrence split, as Python's `split(sep, 1)` on a character list:
`some (before, after)` when `sep` occurs, `none` otherwise. -/
def splitFirst (sep : List Char) : List Char → Option (List Char × List Char)
  | [] => if sep.isPrefixOf ([] : List Char) then some ([], []) else none
  | c :: rest =>
    if sep.isPrefixOf (c :: rest) then some ([], (c :: rest).drop sep.length)
    else (splitFirst sep rest).map (fun q => (c :: q.1, q.2))

/-- Last occurrence split, as Python's `rsplit(sep, 1)`. -/
def rsplitFirst (sep : List Char) (l : List Char) : Option (List Char × List Char) :=
  (splitFirst sep.reverse l.reverse).map (fun q => (q.2.reverse, q.1.reverse))

/-- Digit-string to `Nat`; `none` on empty or non-digit input. -/
def parseNatDigits (cs : List Char) : Option Nat :=
  if cs ≠ [] ∧ cs.all Char.isDigit then
    some (cs.foldl (fun n c => 10 * n + (c.toNat - 48)) 0)
  else none

/-- Python's `int(s)` on the port string: optional sign then digits,
`none` (a `ValueError`) otherwise.  (Python's `int` additionally strips
surrounding whitespace and allows digit-group underscores; no relay line
exercised by the claims contains those.) -/
def parseIntPy (cs : List Char) : Option Int :=
  match cs with
  | '-' :: rest => (parseNatDigits rest).map (fun n => -(n : Int))
  | '+' :: rest => (parseNatDigits rest).map (fun n => (n : Int))
  | _ => (parseNatDigits cs).map (fun n => (n : Int))

/-- `ProxyManager._parse_proxy_string` (lines 268-312): grammar
`[protocol://][user:pass@]host[:port]`; protocol defaults to `http`, port to
8080; an unparsable port makes `int` raise, which the method catches,
returning `None`. -/
def parse_proxy_string (s : String) : Option ProxyInfo :=
  let cs := s.toList
  let pr := match splitFirst ("://".toList) cs with
    | some q => (q.1, q.2)
    | none => ("http".toList, cs)
  let protocol := pr.1
  let rest := pr.2
  let uph : Option (List Char) × Option (List Char) × List Char :=
    match rsplitFirst (['@']) rest with
    | some q =>
      match splitFirst ([':']) q.1 with
      | some uq => (some uq.1, some uq.2, q.2)
      | none => (some q.1, some [], q.2)
    | none => (none, none, rest)
  let username := uph.1
  let password := uph.2.1
  let host_part := uph.2.2
  match rsplitFirst ([':']) host_part with
  | some hq =>
    (parseIntPy hq.2).map (fun port =>
      { host := String.mk hq.1, port := port,
        username := username.map String.mk, password := password.map String.mk,
        protocol := String.mk protocol })
  | none =>
    some { host := String.mk host_part, port := 8080,
           username := username.map String.mk, password := password.map String.mk,
           protocol := String.mk protocol }

/-- Python's `min` on a nonempty list of timestamps (0 on `[]`, a case the
code never reaches: it is guarded by `len >= rate_limit >= 1`). -/
def listMin : List ℚ → ℚ
  | [] => 0
  | [x] => x
  | x :: y :: rest => min x (listMin (y :: rest))

/-- `SteamMarketAPIClient._check_rate_limit` (steam_api.py lines 66-87):
returns the seconds to sleep and the pruned timestamp list (the Python
method prunes `self.request_timestamps` in place). -/
def check_rate_limit (rate_limit : Int) (rate_window : ℚ)
    (request_timestamps : List ℚ) (now : ℚ) : ℚ × List ℚ :=
  if rate_limit ≤ 0 then (0, request_timestamps)
  else
    let ts := request_timestamps.filter (fun t => decide (now - t < rate_window))
    if rate_limit ≤ (ts.length : Int) then
      let oldest_request := listMin ts
      let sleep_time := rate_window - (now - oldest_request)
      if 0 < sleep_time then (sleep_time, ts) else (0, ts)
    else (0, ts)

/-- The admission sequence of `_rate_limited_request` (lines 104-123)
restricted to its rate-limit bookkeeping: check, wait the returned time,
then record the (post-wait) request-start timestamp. -/
def admitAndRecord (rate_limit : Int) (rate_window : ℚ) (ts : List ℚ) (now : ℚ) :
    ℚ × List ℚ :=
  let r := check_rate_limit rate_limit rate_window ts now
  let wait_time : ℚ := if 0 < r.1 then r.1 else 0
  (wait_time, r.2 ++ [now + wait_time])

/-- A sequence of single-attempt dispatches acting on the rate window: step
`(now, d)` checks at time `now`, waits the returned time, and records its
request-start timestamp after a further scheduling delay `d ≥ 0`. -/
def runAdmits (rate_limit : Int) (rate_window : ℚ) :
    List (ℚ × ℚ) → List ℚ → List ℚ
  | [], ts => ts
  | (now, d) :: steps, ts =>
    let r := check_rate_limit rate_limit rate_window ts now
    runAdmits rate_limit rate_window steps (r.2 ++ [now + r.1 + d])

/-- Well-formedness of a dispatch trace: each check happens no earlier than
every timestamp already recorded, and scheduling delays are nonnegative. -/
def ValidTrace (rate_limit : Int) (rate_window : ℚ) :
    List (ℚ × ℚ) → List ℚ → Prop
  | [], _ => True
  | (now, d) :: steps, ts =>
    (∀ t ∈ ts, t ≤ now) ∧ 0 ≤ d ∧
      ValidTrace rate_limit rate_window steps
        ((check_rate_limit rate_limit rate_window ts now).2 ++
          [now + (check_rate_limit rate_limit rate_window ts now).1 + d])

/-- Number of recorded timestamps inside the window `(a, a + W]`. -/
def windowCount (ts : List ℚ) (a W : ℚ) : Nat :=
  (ts.filter (fun t => decide (a < t ∧ t ≤ a + W))).length

/-- Every sliding window of length `W` holds at most `L` timestamps. -/
def WindowBound (L : Int) (W : ℚ) (ts : List ℚ) : Prop :=
  ∀ a : ℚ, (windowCount ts a W : Int) ≤ L

/-- The JSON payload of a successful price response (see section 6 of the
spec): a success flag and the optional price strings. -/
structure PriceData where
  success : Bool
  lowest_price : Option String := none
  median_price : Option String := none
deriving Repr, DecidableEq

/-- Outcome of one HTTP attempt inside `_rate_limited_request`, with the
time the attempt took. -/
inductive AttemptOutcome where
  | ok (data : PriceData) (dur : ℚ)
  | status (code : Int) (dur : ℚ)
  | timeoutErr (dur : ℚ)
  | proxyErr (dur : ℚ)
  | otherErr (dur : ℚ)
deriving Repr, DecidableEq

/-- One cached response with its storage time (steam_api.py lines 255-259). -/
structure CacheEntry where
  data : PriceData
  timestamp : ℚ
deriving Repr, DecidableEq

/-- `SteamMarketAPIClient` state (lines 25-35). -/
structure SteamClient where
  rate_limit : Int := 20
  rate_window : ℚ := 60
  session : Option Unit := none
  cache : List (String × CacheEntry) := []
  cache_ttl : ℚ := 300
  request_timestamps : List ℚ := []
deriving Repr, DecidableEq

/-- Combined state a dispatch call touches: the client, the (module-global)
proxy manager, the semaphore's available permits and the model clock. -/
structure DispatchState where
  client : SteamClient
  pm : ProxyManager
  sem_permits : Int
  clock : ℚ
deriving Repr, DecidableEq

/-- The rotate-then-reselect step of the retry paths,
`proxy_manager.rotate_proxy(); current_proxy = proxy_manager.get_current_proxy()`. -/
def rotateReselect (pm : ProxyManager) : Option (Nat × ProxyInfo) × ProxyManager :=
  get_current_proxy_pair (rotate_proxy pm)

/-- The `for attempt in range(max_retries)` loop of `_rate_limited_request`
(lines 120-216).  `fuel` is the number of attempts left, so the Python
guard `attempt < max_retries - 1` is `0 < fuel` after this attempt consumes
one unit.  Returns (data, wait_time, proxy manager, timestamps, clock). -/
def attemptLoop (outcomes : Nat → AttemptOutcome) :
    Nat → Nat → ProxyManager → List ℚ → ℚ → ℚ → Option (Nat × ProxyInfo) →
    Option PriceData × ℚ × ProxyManager × List ℚ × ℚ
  | _, 0, pm, ts, clock, wait_time, _ => (none, wait_time, pm, ts, clock)
  | attempt, fuel + 1, pm, ts, clock, wait_time, cur =>
    let ts := ts ++ [clock]
    match outcomes attempt with
    | AttemptOutcome.ok data dur =>
      let clock := clock + dur
      let pm := match cur with
        | some ip => mark_proxy_success pm ip.1 clock dur
        | none => pm
      (some data, wait_time, pm, ts, clock)
    | AttemptOutcome.status code dur =>
      let clock := clock + dur
      if code = 429 then
        match cur with
        | some ip =>
          let pm := mark_proxy_failed pm ip.1 clock
          if 0 < fuel then
            let r := rotateReselect pm
            attemptLoop outcomes (attempt + 1) fuel r.2 ts clock wait_time r.1
          else (none, wait_time + 5, pm, ts, clock + 5)
        | none => (none, wait_time + 5, pm, ts, clock + 5)
      else if code = 500 then (none, wait_time, pm, ts, clock)
      else
        match cur with
        | some ip =>
          if code = 403 ∨ code = 407 ∨ code = 502 ∨ code = 503 then
            let pm := mark_proxy_failed pm ip.1 clock
            if 0 < fuel then
              let r := rotateReselect pm
              attemptLoop outcomes (attempt + 1) fuel r.2 ts clock wait_time r.1
            else (none, wait_time, pm, ts, clock)
          else (none, wait_time, pm, ts, clock)
        | none => (none, wait_time, pm, ts, clock)
    | AttemptOutcome.timeoutErr dur =>
      let clock := clock + dur
      match cur with
      | some ip =>
        let pm := mark_proxy_failed pm ip.1 clock
        if 0 < fuel then
          let r := rotateReselect pm
          attemptLoop outcomes (attempt + 1) fuel r.2 ts clock wait_time r.1
        else (none, wait_time, pm, ts, clock)
      | none => (none, wait_time, pm, ts, clock)
    | AttemptOutcome.proxyErr dur =>
      let clock := clock + dur
      match cur with
      | some ip =>
        let pm := mark_proxy_failed pm ip.1 clock
        if 0 < fuel then
          let r := rotateReselect pm
          attemptLoop outcomes (attempt + 1) fuel r.2 ts clock wait_time r.1
        else (none, wait_time, pm, ts, clock)
      | none => (none, wait_time, pm, ts, clock)
    | AttemptOutcome.otherErr dur =>
      let clock := clock + dur
      match cur with
      | some ip =>
        if 0 < fuel then
          let pm := mark_proxy_failed pm ip.1 clock
          let r := rotateReselect pm
          attemptLoop outcomes (attempt + 1) fuel r.2 ts clock wait_time r.1
        else (none, wait_time, pm, ts, clock)
      | none => (none, wait_time, pm, ts, clock)

/-- `SteamMarketAPIClient._rate_limited_request` (lines 89-221): raise if
the session is absent; otherwise acquire the concurrency slot when relays
are enabled, wait out the rate limiter, run up to 3 attempts, and release
the slot on the way out (the Python `finally`). -/
def rate_limited_request (st : DispatchState) (outcomes : Nat → AttemptOutcome) :
    Except String (Option PriceData × ℚ × DispatchState) :=
  match st.client.session with
  | none => Except.error "API client not initialized. Use async context manager."
  | some _ =>
    let useSem := st.pm.use_proxies
    let sem := if useSem then st.sem_permits - 1 else st.sem_permits
    let r := check_rate_limit st.client.rate_limit st.client.rate_window
        st.client.request_timestamps st.clock
    let wait_time : ℚ := if 0 < r.1 then r.1 else 0
    let clock := st.clock + wait_time
    let sel := get_current_proxy_pair st.pm
    let res := attemptLoop outcomes 0 3 sel.2 r.2 clock wait_time sel.1
    let sem' := if useSem then sem + 1 else sem
    Except.ok (res.1, res.2.1,
      { client := { st.client with request_timestamps := res.2.2.2.1 },
        pm := res.2.2.1, sem_permits := sem', clock := res.2.2.2.2 })

/-- The cache key `f"{market_hash_name}_{currency}"`. -/
def mkCacheKey (market_hash_name : String) (currency : Int) : String :=
  market_hash_name ++ "_" ++ toString currency

/-- `SteamMarketAPIClient.get_item_price` (lines 223-269) with the network
call abstracted into the oracle `net` (what `_rate_limited_request` would
return).  Result: (data, wait_time, new client state, whether the network
was consulted). -/
def get_item_price (c : SteamClient) (market_hash_name : String) (currency : Int)
    (now : ℚ) (net : Option PriceData × ℚ) :
    Option PriceData × ℚ × SteamClient × Bool :=
  let cache_key := mkCacheKey market_hash_name currency
  let hit : Option PriceData :=
    match c.cache.lookup cache_key with
    | some entry =>
      if now - entry.timestamp < c.cache_ttl then some entry.data else none
    | none => none
  match hit with
  | some data => (some data, 0, c, false)
  | none =>
    match net.1 with
    | some data =>
      if data.success then
        (some data, net.2,
          { c with cache := (cache_key, CacheEntry.mk data now) :: c.cache }, true)
      else (none, net.2, c, true)
    | none => (none, net.2, c, true)

/-- Characters kept by `re.sub(r'[^\d.,]', '', s)` in `parse_price`
(collect_prices.py lines 191-200): digits, dot, comma. -/
def keepPriceChar (c : Char) : Bool := c.isDigit || c == '.' || c == ','

/-- Value of a digit string, most significant first (0 on `[]`). -/
def digitsToNat (cs : List Char) : Nat :=
  cs.foldl (fun n c => 10 * n + (c.toNat - 48)) 0

/-- Python's `float()` restricted to its digits-and-dots inputs (after
`parse_price` strips everything else): defined iff the string holds at
least one digit and at most one dot, giving integer part plus fraction. -/
def floatOfDigitsDots (cs : List Char) : Option ℚ :=
  if cs.any Char.isDigit ∧ cs.count '.' ≤ 1 ∧ cs.all (fun c => c.isDigit || c == '.') then
    let intPart := cs.takeWhile (fun c => c != '.')
    let fracPart := (cs.dropWhile (fun c => c != '.')).drop 1
    some ((digitsToNat intPart : ℚ) + (digitsToNat fracPart : ℚ) / 10 ^ fracPart.length)
  else none

/-- `parse_price` (collect_prices.py lines 191-200): falsy input gives 0;
otherwise strip everything but digits and separators, drop the commas, and
parse as a decimal, with 0 on a `ValueError`. -/
def parse_price (price_str : String) : ℚ :=
  if price_str = "" then 0
  else
    let price_clean := (price_str.toList.filter keepPriceChar).filter (fun c => c != ',')
    match floatOfDigitsDots price_clean with
    | some v => v
    | none => 0

/-- Remove every entry with key `k`; used to state that an expired cache
entry is treated exactly as an absent one. -/
def dropKey (c : List (String × CacheEntry)) (k : String) : List (String × CacheEntry) :=
  c.filter (fun kv => kv.1 != k)

/-- Two fresh relays, used by concrete scenarios below. -/
def p0 : ProxyInfo := { host := "h0", port := 1 }

/-- Second fresh relay. -/
def p1 : ProxyInfo := { host := "h1", port := 2 }

/-- A pool of two healthy relays with relays enabled. -/
def pmTwo : ProxyManager := { proxies := [p0, p1], use_proxies := true }

/-- A successful response payload. -/
def dOk : PriceData := { success := true }

/-- Dispatch state: session established, two healthy relays, 10 permits. -/
def stTwo : DispatchState :=
  { client := { session := some () }, pm := pmTwo, sem_permits := 10, clock := 0 }

/-- Attempt outcomes: first attempt hits HTTP 429, the retry succeeds. -/
def outRetry : Nat → AttemptOutcome := fun n =>
  if n = 0 then AttemptOutcome.status 429 1 else AttemptOutcome.ok dOk 1

/-- As `stTwo` but with the rate limit configured to 1 per window. -/
def stLimitOne : DispatchState :=
  { client := { session := some (), rate_limit := 1 }, pm := pmTwo,
    sem_permits := 10, clock := 0 }

/-- A relay whose failure streak has reached the threshold 3. -/
def pBad : ProxyInfo := { host := "h", port := 1, is_healthy := false, failure_count := 3 }

/-- A pool holding only the tripped relay. -/
def mBad : ProxyManager := { proxies := [pBad], use_proxies := true }

/-- A pool whose rotating index is stale (beyond the healthy-subset size). -/
def mStale : ProxyManager :=
  { proxies := [p0, p1], use_proxies := true, current_proxy_index := 5 }

/-- A client in its initial state (empty cache, defaults). -/
def cliEmpty : SteamClient := {}

/-- The client after storing the successful payload for ("it", 1) at time 0. -/
def cliStored : SteamClient :=
  { cache := [(mkCacheKey "it" 1, CacheEntry.mk dOk 0)] }

theorem get?_set_self {α : Type} (l : List α) (i : Nat) (a x : α)
    (h : l.get? i = some x) : (l.set i a).get? i = some a := by
  have hi : i < l.length := (List.get?_eq_some.mp h).1
  simp [List.get?_eq_getElem?, List.getElem?_set_self, hi]

theorem get_current_proxy_healthy (m : ProxyManager) (p : ProxyInfo)
    (h : (get_current_proxy m).1 = some p) :
    p.is_healthy = true ∧ p ∈ m.proxies := by
  simp only [get_current_proxy] at h
  split at h
  · simp at h
  · split at h
    · simp at h
    · simp only [] at h
      have hm : p ∈ m.proxies.filter (fun q => q.is_healthy) := by
        split at h
        · exact List.get?_mem (by simpa using h)
        · exact List.get?_mem (by simpa using h)
      have hmf := List.mem_filter.mp hm
      exact ⟨hmf.2, hmf.1⟩

/-- C5: `current()` only ever returns a healthy relay from the pool and
returns none when no relay is healthy; `rotate()` advances the rotating
index modulo the healthy-subset size, and with one or zero healthy relays
it is a no-op, leaving selection unchanged. -/
theorem relay_selection_and_rotation :
    (∀ (m : ProxyManager) (p : ProxyInfo),
        (get_current_proxy m).1 = some p → p.is_healthy = true ∧ p ∈ m.proxies) ∧
    (∀ m : ProxyManager, healthyProxies m = [] → (get_current_proxy m).1 = none) ∧
    (∀ m : ProxyManager, m.use_proxies = true → 1 < (healthyProxies m).length →
        rotate_proxy m =
          { m with current_proxy_index :=
              (m.current_proxy_index + 1) % (healthyProxies m).length }) ∧
    (∀ m : ProxyManager, (healthyProxies m).length ≤ 1 → rotate_proxy m = m) := by
  refine ⟨fun m p h => get_current_proxy_healthy m p h, ?_, ?_, ?_⟩
  · intro m h
    simp only [healthyProxies] at h
    simp only [get_current_proxy, h]
    split
    · rfl
    · simp
  · intro m hu hl
    simp only [healthyProxies] at hl
    have hfne : m.proxies.filter (fun p => p.is_healthy) ≠ [] := by
      intro he
      rw [he] at hl
      simp at hl
    have hpne : m.proxies.isEmpty = false := by
      cases hp : m.proxies with
      | nil => rw [hp] at hfne; simp at hfne
      | cons a l => rfl
    have h1 : ¬ (m.proxies.filter (fun p => p.is_healthy)).length ≤ 1 := by omega
    simp [rotate_proxy, healthyProxies, hu, hpne, h1]
  · intro m hl
    simp only [healthyProxies] at hl
    simp only [rotate_proxy]
    split
    · rfl
    · simp [hl]

/-- C5 witness: on the two-relay pool, selection returns the healthy relay
`p0`; on the pool whose only relay is unhealthy, selection returns none;
rotation advances the index modulo 2; rotation on the one-relay pool is a
no-op. -/
theorem relay_selection_and_rotation_witness :
    (p0.is_healthy = true ∧ p0 ∈ pmTwo.proxies) ∧
    ((get_current_proxy mBad).1 = none) ∧
    (rotate_proxy pmTwo = { pmTwo with current_proxy_index :=
        (pmTwo.current_proxy_index + 1) % (healthyProxies pmTwo).length }) ∧
    (rotate_proxy mBad = mBad) :=
  ⟨relay_selection_and_rotation.1 pmTwo p0 (by decide),
   relay_selection_and_rotation.2.1 mBad (by decide),
   relay_selection_and_rotation.2.2.1 pmTwo (by decide) (by decide),
   relay_selection_and_rotation.2.2.2 mBad (by decide)⟩

/-- C10: with relays enabled and at least one healthy relay, selection
always yields a healthy relay even when the rotating index is stale (at or
beyond the healthy-subset size): the index is clamped back to 0 instead of
indexing out of bounds. -/
theorem stale_rotation_index_safe (m : ProxyManager) (hu : m.use_proxies = true)
    (hne : healthyProxies m ≠ []) :
    (∃ p, (get_current_proxy m).1 = some p ∧ p.is_healthy = true) ∧
    ((healthyProxies m).length ≤ m.current_proxy_index →
      (get_current_proxy m).1 = (healthyProxies m).get? 0) := by
  have hfne : m.proxies.filter (fun p => p.is_healthy) ≠ [] := by
    simpa [healthyProxies] using hne
  have hpne : m.proxies.isEmpty = false := by
    cases hp : m.proxies with
    | nil => rw [hp] at hfne; simp at hfne
    | cons a l => rfl
  have hlen : 0 < (m.proxies.filter (fun p => p.is_healthy)).length :=
    List.length_pos.mpr hfne
  have hcempty : (m.proxies.filter (fun p => p.is_healthy)).isEmpty = false := by
    cases hll : m.proxies.filter (fun p => p.is_healthy) with
    | nil => exact absurd hll hfne
    | cons a l => rfl
  constructor
  · by_cases hidx : (m.proxies.filter (fun p => p.is_healthy)).length ≤ m.current_proxy_index
    · refine ⟨(m.proxies.filter (fun p => p.is_healthy)).get ⟨0, hlen⟩, ?_, ?_⟩
      · simp [get_current_proxy, hu, hpne, hcempty, hidx, List.get?_eq_get hlen]
      · have := List.get_mem (m.proxies.filter (fun p => p.is_healthy)) 0 hlen
        exact (List.mem_filter.mp this).2
    · have hlt : m.current_proxy_index <
          (m.proxies.filter (fun p => p.is_healthy)).length := by omega
      refine ⟨(m.proxies.filter (fun p => p.is_healthy)).get
          ⟨m.current_proxy_index, hlt⟩, ?_, ?_⟩
      · simp [get_current_proxy, hu, hpne, hcempty, hidx, List.get?_eq_get hlt]
      · have := List.get_mem (m.proxies.filter (fun p => p.is_healthy))
          m.current_proxy_index hlt
        exact (List.mem_filter.mp this).2
  · intro hidx
    simp only [healthyProxies] at hidx
    simp [get_current_proxy, healthyProxies, hu, hpne, hcempty, hidx]

/-- C10 witness: a stale index 5 on a pool of two healthy relays still
selects a healthy relay, namely the clamped first healthy one. -/
theorem stale_rotation_index_safe_witness :
    ((∃ p, (get_current_proxy mStale).1 = some p ∧ p.is_healthy = true) ∧
      ((healthyProxies mStale).length ≤ mStale.current_proxy_index →
        (get_current_proxy mStale).1 = (healthyProxies mStale).get? 0)) :=
  stale_rotation_index_safe mStale (by decide) (by decide)

/-- C1 counterexample: on the pool whose only relay has tripped (healthy =
false, streak 3), a successful probe (`test_proxy` returning true) leaves
the relay unhealthy with streak 2 — it neither sets healthy = true nor
resets the streak to 0, contradicting the claim's re-admission sentence. -/
theorem probe_success_readmission_counterexample :
    (test_proxy mBad 0 (ProbeOutcome.status 200) 5 1).1 = true ∧
    ((test_proxy mBad 0 (ProbeOutcome.status 200) 5 1).2.proxies.get? 0).map
        (fun p => (p.is_healthy, p.failure_count)) = some (false, 2) := by
  decide

/-- C1 amended: once a relay is unhealthy it stays excluded from selection;
a successful probe (`test_proxy`, status 200) merely decrements the failure
streak by one (floored at 0) and leaves `healthy = false`, and ordinary
traffic success (`mark_proxy_success`) likewise never re-admits it;
selection never returns an unhealthy relay. -/
theorem unhealthy_relay_stays_excluded (m : ProxyManager) (i : Nat)
    (p : ProxyInfo) (now rt : ℚ) (hget : m.proxies.get? i = some p)
    (hbad : p.is_healthy = false) :
    (((test_proxy m i (ProbeOutcome.status 200) now rt).2.proxies.get? i).map
        (fun q => q.is_healthy) = some false) ∧
    (((test_proxy m i (ProbeOutcome.status 200) now rt).2.proxies.get? i).map
        (fun q => q.failure_count) =
      some (if 0 < p.failure_count then max 0 (p.failure_count - 1)
            else p.failure_count)) ∧
    (((mark_proxy_success m i now rt).proxies.get? i).map
        (fun q => q.is_healthy) = some false) ∧
    (∀ (m' : ProxyManager) (q : ProxyInfo),
        (get_current_proxy m').1 = some q → q.is_healthy = true) := by
  have hset : (mark_proxy_success m i now rt).proxies.get? i =
      some (markSuccessRecord now rt p) := by
    simp only [mark_proxy_success, hget]
    exact get?_set_self m.proxies i (markSuccessRecord now rt p) p hget
  have hhealth : (markSuccessRecord now rt p).is_healthy = false := by
    simp only [markSuccessRecord]
    split <;> simpa using hbad
  have hcount : (markSuccessRecord now rt p).failure_count =
      if 0 < p.failure_count then max 0 (p.failure_count - 1)
      else p.failure_count := by
    simp only [markSuccessRecord]
    split <;> simp_all
  have hpr : (test_proxy m i (ProbeOutcome.status 200) now rt).2 =
      mark_proxy_success m i now rt := by
    simp [test_proxy]
  refine ⟨?_, ?_, ?_, ?_⟩
  · rw [hpr, hset]
    simp [hhealth]
  · rw [hpr, hset]
    simp [hcount]
  · rw [hset]
    simp [hhealth]
  · intro m' q hq
    exact (get_current_proxy_healthy m' q hq).1

/-- C1 amended witness: the tripped relay of `mBad`, probed successfully at
time 5 with latency 1. -/
theorem unhealthy_relay_stays_excluded_witness :
    (((test_proxy mBad 0 (ProbeOutcome.status 200) 5 1).2.proxies.get? 0).map
        (fun q => q.is_healthy) = some false) ∧
    (((test_proxy mBad 0 (ProbeOutcome.status 200) 5 1).2.proxies.get? 0).map
        (fun q => q.failure_count) =
      some (if 0 < pBad.failure_count then max 0 (pBad.failure_count - 1)
            else pBad.failure_count)) ∧
    (((mark_proxy_success mBad 0 5 1).proxies.get? 0).map
        (fun q => q.is_healthy) = some false) ∧
    (∀ (m' : ProxyManager) (q : ProxyInfo),
        (get_current_proxy m').1 = some q → q.is_healthy = true) :=
  unhealthy_relay_stays_excluded mBad 0 pBad 5 1 (by decide) (by decide)

/-- C7: relay line parsing — a full line with protocol, credentials and
port parses to its components; a bare host gets the default protocol
`http`, no credentials and default port 8080; a line whose port segment is
not an integer is rejected with no relay (never fatally). -/
theorem relay_line_parsing :
    parse_proxy_string "http://u:p@10.0.0.1:3128" =
      some { host := "10.0.0.1", port := 3128, username := some "u",
             password := some "p", protocol := "http" } ∧
    parse_proxy_string "10.0.0.1" =
      some { host := "10.0.0.1", port := 8080, username := none,
             password := none, protocol := "http" } ∧
    parse_proxy_string "10.0.0.1:badport" = none := by
  refine ⟨?_, ?_, ?_⟩ <;> rfl

/-- C9: price parsing — empty input parses to 0; an input with no digit at
all parses to 0; an input that is malformed after stripping (two or more
decimal points) parses to 0; characters other than digits and the
separators do not influence the result (two inputs agreeing after the strip
parse equally); and a representative string with currency symbol and
thousands separator parses to its decimal value. -/
theorem price_parsing_spec :
    (parse_price "" = 0) ∧
    (∀ s : String, (∀ c ∈ s.toList, c.isDigit = false) → parse_price s = 0) ∧
    (∀ s : String, 2 ≤ s.toList.count '.' → parse_price s = 0) ∧
    (∀ s t : String, s ≠ "" → t ≠ "" →
        s.toList.filter keepPriceChar = t.toList.filter keepPriceChar →
        parse_price s = parse_price t) ∧
    (parse_price "$1,234.56" = 123456 / 100) := by
  refine ⟨by decide, ?_, ?_, ?_, ?_⟩
  · intro s h
    by_cases hs : s = ""
    · simp [parse_price, hs]
    · have hnone : floatOfDigitsDots
          ((s.toList.filter keepPriceChar).filter (fun c => c != ',')) = none := by
        simp only [floatOfDigitsDots]
        rw [if_neg]
        rintro ⟨h1, -, -⟩
        obtain ⟨x, hx, hxd⟩ := List.any_eq_true.mp h1
        have hx1 := (List.mem_filter.mp hx).1
        have hx2 := (List.mem_filter.mp hx1).1
        rw [h x hx2] at hxd
        simp at hxd
      simp only [parse_price]
      rw [if_neg hs, hnone]
  · intro s h
    by_cases hs : s = ""
    · simp [parse_price, hs]
    · have hc : ((s.toList.filter keepPriceChar).filter (fun c => c != ',')).count '.' =
          s.toList.count '.' := by
        rw [List.count_filter (by decide), List.count_filter (by decide)]
      have hnone : floatOfDigitsDots
          ((s.toList.filter keepPriceChar).filter (fun c => c != ',')) = none := by
        simp only [floatOfDigitsDots]
        rw [if_neg]
        rintro ⟨-, h2, -⟩
        rw [hc] at h2
        omega
      simp only [parse_price]
      rw [if_neg hs, hnone]
  · intro s t hs ht hft
    simp only [parse_price, if_neg hs, if_neg ht, hft]
  · have h1 : ("$1,234.56".toList.filter keepPriceChar).filter (fun c => c != ',') =
        ['1', '2', '3', '4', '.', '5', '6'] := by decide
    simp only [parse_price]
    rw [if_neg (by decide), h1]
    rw [show floatOfDigitsDots ['1', '2', '3', '4', '.', '5', '6'] =
        some ((1234 : ℚ) + (56 : ℚ) / 10 ^ 2) from ?_]
    · norm_num
    · simp only [floatOfDigitsDots]
      rw [if_pos (by decide)]
      rw [show List.takeWhile (fun c => c != '.') ['1', '2', '3', '4', '.', '5', '6'] =
            ['1', '2', '3', '4'] from by decide,
          show (List.dropWhile (fun c => c != '.')
              ['1', '2', '3', '4', '.', '5', '6']).drop 1 = ['5', '6'] from by decide]
      rw [show digitsToNat ['1', '2', '3', '4'] = 1234 from by decide,
          show digitsToNat ['5', '6'] = 56 from by decide]
      norm_num

/-- C9 witness: no digits, double decimal point, and strip-equivalence on
representative inputs. -/
theorem price_parsing_spec_witness :
    parse_price "abc" = 0 ∧ parse_price "$1.2.3" = 0 ∧
    parse_price "$5" = parse_price "5 USD" :=
  ⟨price_parsing_spec.2.1 "abc" (by decide),
   price_parsing_spec.2.2.1 "$1.2.3" (by decide),
   price_parsing_spec.2.2.2.1 "$5" "5 USD" (by decide) (by decide) (by decide)⟩

theorem listMin_mem : ∀ (l : List ℚ), l ≠ [] → listMin l ∈ l
  | [], h => absurd rfl h
  | [x], _ => by simp [listMin]
  | x :: y :: rest, _ => by
    rw [listMin]
    rcases min_choice x (listMin (y :: rest)) with h | h
    · rw [h]; exact List.mem_cons_self _ _
    · rw [h]
      exact List.mem_cons_of_mem _ (listMin_mem (y :: rest) (by simp))

theorem listMin_le : ∀ (l : List ℚ) (x : ℚ), x ∈ l → listMin l ≤ x
  | [], x, h => absurd h (List.not_mem_nil x)
  | [a], x, h => by
    rcases List.mem_singleton.mp h with rfl
    simp [listMin]
  | a :: b :: rest, x, h => by
    rw [listMin]
    rcases List.mem_cons.mp h with rfl | hmem
    · exact min_le_left _ _
    · exact le_trans (min_le_right _ _) (listMin_le (b :: rest) x hmem)

theorem windowCount_append (l l' : List ℚ) (a W : ℚ) :
    windowCount (l ++ l') a W = windowCount l a W + windowCount l' a W := by
  simp [windowCount, List.filter_append]

theorem windowCount_le_of_sublist (l l' : List ℚ) (a W : ℚ)
    (h : List.Sublist l l') : windowCount l a W ≤ windowCount l' a W :=
  List.Sublist.length_le (h.filter _)

theorem windowCount_le_length (l : List ℚ) (a W : ℚ) :
    windowCount l a W ≤ l.length :=
  List.length_filter_le _ _

theorem filter_length_lt_of_mem {α : Type} (l : List α) (p : α → Bool) (x : α)
    (hx : x ∈ l) (hpx : p x = false) : (l.filter p).length < l.length := by
  induction l with
  | nil => cases hx
  | cons a t ih =>
    rcases List.mem_cons.mp hx with rfl | hmem
    · rw [List.filter_cons, hpx]
      exact Nat.lt_succ_of_le (List.length_filter_le _ _)
    · rw [List.filter_cons]
      cases hpa : p a with
      | true => simpa using Nat.succ_lt_succ (ih hmem)
      | false => exact Nat.lt_succ_of_le (Nat.le_of_lt (ih hmem))

theorem check_rate_limit_cases (rl : Int) (rw : ℚ) (ts : List ℚ) (now : ℚ)
    (hrl : 0 < rl) :
    (((ts.filter (fun t => decide (now - t < rw))).length : Int) < rl ∧
      check_rate_limit rl rw ts now =
        (0, ts.filter (fun t => decide (now - t < rw)))) ∨
    (rl ≤ ((ts.filter (fun t => decide (now - t < rw))).length : Int) ∧
      0 < rw - (now - listMin (ts.filter (fun t => decide (now - t < rw)))) ∧
      check_rate_limit rl rw ts now =
        (rw - (now - listMin (ts.filter (fun t => decide (now - t < rw)))),
          ts.filter (fun t => decide (now - t < rw)))) := by
  by_cases hlen : rl ≤ ((ts.filter (fun t => decide (now - t < rw))).length : Int)
  · right
    have hne : ts.filter (fun t => decide (now - t < rw)) ≠ [] := by
      intro he
      rw [he] at hlen
      simp at hlen
      omega
    have hmem := listMin_mem _ hne
    have hlt : now - listMin (ts.filter (fun t => decide (now - t < rw))) < rw :=
      of_decide_eq_true (List.mem_filter.mp hmem).2
    have hpos : 0 < rw - (now - listMin (ts.filter (fun t => decide (now - t < rw)))) := by
      linarith
    refine ⟨hlen, hpos, ?_⟩
    simp only [check_rate_limit]
    rw [if_neg (by omega), if_pos hlen, if_pos hpos]
  · left
    refine ⟨by omega, ?_⟩
    simp only [check_rate_limit]
    rw [if_neg (by omega), if_neg hlen]

theorem check_rate_limit_fst_nonneg (rl : Int) (rw : ℚ) (ts : List ℚ) (now : ℚ) :
    0 ≤ (check_rate_limit rl rw ts now).1 := by
  rcases le_or_lt rl 0 with h | h
  · simp only [check_rate_limit]
    rw [if_pos h]
  · rcases check_rate_limit_cases rl rw ts now h with ⟨-, hc⟩ | ⟨-, hpos, hc⟩
    · rw [hc]
    · rw [hc]
      exact le_of_lt hpos

/-- C4: admission-check contract — with limit ≤ 0 the check returns 0 and
leaves the state alone (and the caller records its timestamp immediately);
with a positive limit, after pruning entries older than the window, fewer
than `limit` survivors admit immediately with wait 0 and `now` recorded,
while `limit` or more survivors yield wait = window − (now − oldest) (which
is positive), the timestamp being recorded only after that wait. -/
theorem rate_limit_admission_spec (rl : Int) (rw : ℚ) (ts : List ℚ) (now : ℚ) :
    (rl ≤ 0 → check_rate_limit rl rw ts now = (0, ts) ∧
      admitAndRecord rl rw ts now = (0, ts ++ [now])) ∧
    (0 < rl → ((ts.filter (fun t => decide (now - t < rw))).length : Int) < rl →
      check_rate_limit rl rw ts now =
        (0, ts.filter (fun t => decide (now - t < rw))) ∧
      admitAndRecord rl rw ts now =
        (0, ts.filter (fun t => decide (now - t < rw)) ++ [now])) ∧
    (0 < rl → rl ≤ ((ts.filter (fun t => decide (now - t < rw))).length : Int) →
      0 < rw - (now - listMin (ts.filter (fun t => decide (now - t < rw)))) ∧
      check_rate_limit rl rw ts now =
        (rw - (now - listMin (ts.filter (fun t => decide (now - t < rw)))),
          ts.filter (fun t => decide (now - t < rw))) ∧
      admitAndRecord rl rw ts now =
        (rw - (now - listMin (ts.filter (fun t => decide (now - t < rw)))),
          ts.filter (fun t => decide (now - t < rw)) ++
            [now + (rw - (now - listMin (ts.filter (fun t => decide (now - t < rw)))))])) := by
  refine ⟨?_, ?_, ?_⟩
  · intro h
    have hc : check_rate_limit rl rw ts now = (0, ts) := by
      simp only [check_rate_limit]
      rw [if_pos h]
    refine ⟨hc, ?_⟩
    simp [admitAndRecord, hc]
  · intro hrl hlen
    rcases check_rate_limit_cases rl rw ts now hrl with ⟨-, hc⟩ | ⟨hge, -, -⟩
    · refine ⟨hc, ?_⟩
      simp [admitAndRecord, hc]
    · omega
  · intro hrl hlen
    rcases check_rate_limit_cases rl rw ts now hrl with ⟨hlt, -⟩ | ⟨-, hpos, hc⟩
    · omega
    · refine ⟨hpos, hc, ?_⟩
      simp only [admitAndRecord, hc]
      rw [if_pos hpos]

/-- C4 witness: limit 0 is disabled; an under-limit state admits at once;
a full window of 2 at timestamps 10 and 20 checked at 30 with window 60
waits 60 − (30 − 10) = 40 and records 30 + 40 = 70 after the wait. -/
theorem rate_limit_admission_spec_witness :
    (check_rate_limit 0 60 [1, 2, 3] 100 = (0, [1, 2, 3]) ∧
      admitAndRecord 0 60 [1, 2, 3] 100 = (0, [1, 2, 3] ++ [100])) ∧
    (check_rate_limit 2 60 [] 0 = (0, [].filter (fun t => decide ((0 : ℚ) - t < 60))) ∧
      admitAndRecord 2 60 [] 0 =
        (0, [].filter (fun t => decide ((0 : ℚ) - t < 60)) ++ [0])) ∧
    (0 < (60 : ℚ) - (30 - listMin ([10, 20].filter (fun t => decide ((30 : ℚ) - t < 60)))) ∧
      check_rate_limit 2 60 [10, 20] 30 =
        (60 - (30 - listMin ([10, 20].filter (fun t => decide ((30 : ℚ) - t < 60)))),
          [10, 20].filter (fun t => decide ((30 : ℚ) - t < 60))) ∧
      admitAndRecord 2 60 [10, 20] 30 =
        (60 - (30 - listMin ([10, 20].filter (fun t => decide ((30 : ℚ) - t < 60)))),
          [10, 20].filter (fun t => decide ((30 : ℚ) - t < 60)) ++
            [30 + (60 - (30 - listMin ([10, 20].filter (fun t => decide ((30 : ℚ) - t < 60)))))])) :=
  ⟨(rate_limit_admission_spec 0 60 [1, 2, 3] 100).1 (by norm_num),
   (rate_limit_admission_spec 2 60 [] 0).2.1 (by norm_num) (by norm_num),
   (rate_limit_admission_spec 2 60 [10, 20] 30).2.2 (by norm_num)
     (by norm_num [List.filter_cons, List.filter_nil])⟩

theorem windowCount_singleton (x a W : ℚ) :
    windowCount [x] a W = if a < x ∧ x ≤ a + W then 1 else 0 := by
  by_cases h : a < x ∧ x ≤ a + W
  · simp [windowCount, List.filter_cons, h]
  · simp [windowCount, List.filter_cons, h]

theorem admit_step (rl : Int) (rw : ℚ) (ts : List ℚ) (now d : ℚ)
    (hrl : 0 < rl) (hd : 0 ≤ d)
    (hub : ∀ t ∈ ts, t ≤ now)
    (hwb : WindowBound rl rw ts)
    (hsort : List.Sorted (· ≤ ·) ts) :
    WindowBound rl rw
        ((check_rate_limit rl rw ts now).2 ++
          [now + (check_rate_limit rl rw ts now).1 + d]) ∧
    List.Sorted (· ≤ ·)
        ((check_rate_limit rl rw ts now).2 ++
          [now + (check_rate_limit rl rw ts now).1 + d]) := by
  have hpub : ∀ t ∈ ts.filter (fun t => decide (now - t < rw)), t ≤ now :=
    fun t ht => hub t (List.mem_filter.mp ht).1
  have hplt : ∀ t ∈ ts.filter (fun t => decide (now - t < rw)), now - t < rw :=
    fun t ht => of_decide_eq_true (List.mem_filter.mp ht).2
  have hpsort : List.Sorted (· ≤ ·) (ts.filter (fun t => decide (now - t < rw))) :=
    hsort.filter _
  have hplen : ((ts.filter (fun t => decide (now - t < rw))).length : Int) ≤ rl := by
    have heq : windowCount (ts.filter (fun t => decide (now - t < rw))) (now - rw) rw =
        (ts.filter (fun t => decide (now - t < rw))).length := by
      unfold windowCount
      rw [List.filter_eq_self.mpr]
      intro t ht
      have h1 := hplt t ht
      have h2 := hpub t ht
      exact decide_eq_true (by constructor <;> linarith)
    have hle : windowCount (ts.filter (fun t => decide (now - t < rw))) (now - rw) rw ≤
        windowCount ts (now - rw) rw :=
      windowCount_le_of_sublist _ _ _ _ (List.filter_sublist ts)
    have hb := hwb (now - rw)
    omega
  rcases check_rate_limit_cases rl rw ts now hrl with ⟨hlt, hc⟩ | ⟨hge, hpos, hc⟩
  · rw [hc]
    dsimp only
    constructor
    · intro a
      rw [windowCount_append]
      by_cases hin : a < now + 0 + d ∧ now + 0 + d ≤ a + rw
      · have h1 : windowCount [now + 0 + d] a rw = 1 := by
          rw [windowCount_singleton, if_pos hin]
        have h2 := windowCount_le_length (ts.filter (fun t => decide (now - t < rw))) a rw
        omega
      · have h1 : windowCount [now + 0 + d] a rw = 0 := by
          rw [windowCount_singleton, if_neg hin]
        have h2 := windowCount_le_of_sublist
            (ts.filter (fun t => decide (now - t < rw))) ts a rw (List.filter_sublist ts)
        have hb := hwb a
        omega
    · refine List.pairwise_append.mpr ⟨hpsort, List.sorted_singleton _, ?_⟩
      intro x hx y hy
      rw [List.mem_singleton] at hy
      subst hy
      have := hpub x hx
      linarith
  · rw [hc]
    dsimp only
    have hne : ts.filter (fun t => decide (now - t < rw)) ≠ [] := by
      intro he
      rw [he] at hge
      simp at hge
      omega
    have hmin_mem := listMin_mem _ hne
    constructor
    · intro a
      rw [windowCount_append]
      by_cases hin : a < now + (rw - (now - listMin (ts.filter (fun t => decide (now - t < rw))))) + d ∧
          now + (rw - (now - listMin (ts.filter (fun t => decide (now - t < rw))))) + d ≤ a + rw
      · have h1 : windowCount
            [now + (rw - (now - listMin (ts.filter (fun t => decide (now - t < rw))))) + d]
            a rw = 1 := by
          rw [windowCount_singleton, if_pos hin]
        have ha : listMin (ts.filter (fun t => decide (now - t < rw))) ≤ a := by
          have h2 := hin.2
          linarith
        have hflt : windowCount (ts.filter (fun t => decide (now - t < rw))) a rw <
            (ts.filter (fun t => decide (now - t < rw))).length := by
          unfold windowCount
          exact filter_length_lt_of_mem _ _ _ hmin_mem
            (decide_eq_false (fun hcon => absurd hcon.1 (not_lt.mpr ha)))
        omega
      · have h1 : windowCount
            [now + (rw - (now - listMin (ts.filter (fun t => decide (now - t < rw))))) + d]
            a rw = 0 := by
          rw [windowCount_singleton, if_neg hin]
        have h2 := windowCount_le_of_sublist
            (ts.filter (fun t => decide (now - t < rw))) ts a rw (List.filter_sublist ts)
        have hb := hwb a
        omega
    · refine List.pairwise_append.mpr ⟨hpsort, List.sorted_singleton _, ?_⟩
      intro x hx y hy
      rw [List.mem_singleton] at hy
      subst hy
      have := hpub x hx
      linarith

theorem runAdmits_invariant (rl : Int) (rw : ℚ) :
    ∀ (steps : List (ℚ × ℚ)) (ts : List ℚ),
      0 < rl → ValidTrace rl rw steps ts → WindowBound rl rw ts →
      List.Sorted (· ≤ ·) ts →
      WindowBound rl rw (runAdmits rl rw steps ts) ∧
        List.Sorted (· ≤ ·) (runAdmits rl rw steps ts) := by
  intro steps
  induction steps with
  | nil =>
    intro ts _ _ hwb hs
    exact ⟨hwb, hs⟩
  | cons step rest ih =>
    intro ts hrl hvt hwb hs
    obtain ⟨now, d⟩ := step
    simp only [ValidTrace] at hvt
    obtain ⟨hub, hd, hvt'⟩ := hvt
    have hstep := admit_step rl rw ts now d hrl hd hub hwb hs
    simp only [runAdmits]
    exact ih _ hrl hvt' hstep.1 hstep.2

theorem attemptLoop_first_ok (outcomes : Nat → AttemptOutcome)
    (attempt fuel : Nat) (pm : ProxyManager) (ts : List ℚ)
    (clock wait_time : ℚ) (cur : Option (Nat × ProxyInfo)) (d0 : PriceData)
    (dur : ℚ) (h : outcomes attempt = AttemptOutcome.ok d0 dur) :
    attemptLoop outcomes attempt (fuel + 1) pm ts clock wait_time cur =
      (some d0, wait_time,
        (match cur with
         | some ip => mark_proxy_success pm ip.1 (clock + dur) dur
         | none => pm), ts ++ [clock], clock + dur) := by
  simp only [attemptLoop, h]

theorem attemptLoop3_first_ok (outcomes : Nat → AttemptOutcome)
    (attempt : Nat) (pm : ProxyManager) (ts : List ℚ)
    (clock wait_time : ℚ) (cur : Option (Nat × ProxyInfo)) (d0 : PriceData)
    (dur : ℚ) (h : outcomes attempt = AttemptOutcome.ok d0 dur) :
    attemptLoop outcomes attempt 3 pm ts clock wait_time cur =
      (some d0, wait_time,
        (match cur with
         | some ip => mark_proxy_success pm ip.1 (clock + dur) dur
         | none => pm), ts ++ [clock], clock + dur) :=
  attemptLoop_first_ok outcomes attempt 2 pm ts clock wait_time cur d0 dur h

/-- C2 amended: the one-timestamp-per-admission discipline holds for
dispatches that succeed on their first attempt — for every positive limit
`L` and every valid trace of single-attempt admissions, no sliding window
of length `W` ever holds more than `L` recorded timestamps and the list
stays non-decreasing; one `runAdmits` step is exactly the checked-waited-
recorded admission `admitAndRecord`, and a dispatch whose first attempt returns
HTTP 200 updates the recorded timestamps exactly as `admitAndRecord` does.
(Retried attempts append further timestamps without re-admission, which is
what refutes the unrestricted claim.) -/
theorem rate_window_bound_single_attempt :
    (∀ (rl : Int) (rw : ℚ) (steps : List (ℚ × ℚ)) (ts : List ℚ),
        0 < rl → ValidTrace rl rw steps ts → WindowBound rl rw ts →
        List.Sorted (· ≤ ·) ts →
        WindowBound rl rw (runAdmits rl rw steps ts) ∧
          List.Sorted (· ≤ ·) (runAdmits rl rw steps ts)) ∧
    (∀ (rl : Int) (rw : ℚ) (ts : List ℚ) (now : ℚ),
        runAdmits rl rw [(now, 0)] ts = (admitAndRecord rl rw ts now).2) ∧
    (∀ (st : DispatchState) (outcomes : Nat → AttemptOutcome) (d0 : PriceData)
        (dur : ℚ) (r : Option PriceData × ℚ × DispatchState),
        outcomes 0 = AttemptOutcome.ok d0 dur →
        rate_limited_request st outcomes = Except.ok r →
        r.2.2.client.request_timestamps =
          (admitAndRecord st.client.rate_limit st.client.rate_window
            st.client.request_timestamps st.clock).2) := by
  refine ⟨fun rl rw => runAdmits_invariant rl rw, ?_, ?_⟩
  · intro rl rw ts now
    have hnn := check_rate_limit_fst_nonneg rl rw ts now
    have hwait : (if 0 < (check_rate_limit rl rw ts now).1
        then (check_rate_limit rl rw ts now).1 else 0) =
        (check_rate_limit rl rw ts now).1 := by
      rcases eq_or_lt_of_le hnn with h | h
      · rw [if_neg (by rw [← h]; exact lt_irrefl 0), ← h]
      · rw [if_pos h]
    simp only [runAdmits, admitAndRecord, hwait, add_zero]
  · intro st outcomes d0 dur r hout hr
    cases hs : st.client.session with
    | none =>
      simp only [rate_limited_request, hs] at hr
      exact Except.noConfusion hr
    | some u =>
      simp only [rate_limited_request, hs,
        attemptLoop3_first_ok outcomes 0 _ _ _ _ _ d0 dur hout] at hr
      injection hr with hr
      rw [← hr]
      simp only [admitAndRecord]

/-- C2 counterexample: with limit 1 and window 60, one dispatched request
whose first attempt is answered 429 through a relay (causing a retry)
records two timestamps inside a single 60-second window — the window at
-1/2 holds more timestamps than the limit, refuting the claimed bound on
the resulting rate-window list. -/
theorem rate_window_bound_counterexample :
    (rate_limited_request stLimitOne outRetry).map
        (fun r => r.2.2.client.request_timestamps) = Except.ok [0, 1] ∧
    0 < stLimitOne.client.rate_limit ∧ stLimitOne.client.rate_window = 60 ∧
    stLimitOne.client.rate_limit <
      (windowCount [0, 1] (-(1 / 2)) stLimitOne.client.rate_window : Int) := by
  refine ⟨?_, by norm_num [stLimitOne], by norm_num [stLimitOne], ?_⟩
  · norm_num [rate_limited_request, stLimitOne, pmTwo, p0, p1, outRetry, dOk,
      check_rate_limit, attemptLoop, get_current_proxy_pair, enumHealthy,
      rotateReselect, rotate_proxy, mark_proxy_failed, markFailedRecord,
      mark_proxy_success, markSuccessRecord, Except.map]
  · norm_num [stLimitOne, windowCount, List.filter_cons, List.filter_nil]

/-- C2 amended witness: the trace checking at times 0 and 30 against limit
2 and window 60, started on the empty list. -/
theorem rate_window_bound_single_attempt_witness :
    WindowBound 2 60 (runAdmits 2 60 [(0, 0), (30, 0)] []) ∧
      List.Sorted (· ≤ ·) (runAdmits 2 60 [(0, 0), (30, 0)] []) := by
  have hc0 : check_rate_limit 2 60 ([] : List ℚ) 0 = (0, []) := by
    norm_num [check_rate_limit]
  refine rate_window_bound_single_attempt.1 2 60 [(0, 0), (30, 0)] [] (by norm_num)
    ?_ (by intro a; simp [windowCount]) (by simp)
  simp only [ValidTrace, hc0]
  norm_num

/-- C3 counterexample: in the two-relay scenario where attempt 1 gets HTTP
429 (after an immediate rate-limit admission) and attempt 2 gets HTTP 200,
the dispatch returns the attempt-2 payload with accumulated wait time 0 —
the claim's required nonzero wait does not occur, because the fixed 429
backoff is applied only when no retry happens. -/
theorem dispatch_429_then_200_wait_counterexample :
    (rate_limited_request stTwo outRetry).map (fun r => (r.1, r.2.1)) =
      Except.ok (some dOk, 0) := by
  norm_num [rate_limited_request, stTwo, pmTwo, p0, p1, outRetry, dOk,
    check_rate_limit, attemptLoop, get_current_proxy_pair, enumHealthy,
    rotateReselect, rotate_proxy, mark_proxy_failed, markFailedRecord,
    mark_proxy_success, markSuccessRecord, Except.map]

/-- C3 amended: in the two-relay scenario, a dispatch whose attempt 1
receives 429 through the first relay and whose attempt 2 receives 200
returns the attempt-2 result, reports exactly one failure against the
first relay and one success against the second, releases its permit, and
returns a wait time equal to the rate-limiter wait — here 0, since the
admission was immediate (it is not in general nonzero). -/
theorem dispatch_429_then_200 (d : PriceData) (dur1 dur2 : ℚ) :
    (rate_limited_request stTwo
        (fun n => if n = 0 then AttemptOutcome.status 429 dur1
                  else AttemptOutcome.ok d dur2)).map
        (fun r => (r.1, r.2.1,
          r.2.2.pm.proxies.map (fun p => (p.failure_count, p.success_count)),
          r.2.2.sem_permits)) =
      Except.ok (some d, 0, [(1, 0), (0, 1)], 10) := by
  norm_num [rate_limited_request, stTwo, pmTwo, p0, p1, check_rate_limit,
    attemptLoop, get_current_proxy_pair, enumHealthy, rotateReselect,
    rotate_proxy, mark_proxy_failed, markFailedRecord, mark_proxy_success,
    markSuccessRecord, Except.map]

/-- C8: the dispatcher errors exactly when used before its session is
established; for every session-established state and every sequence of
attempt outcomes (success, 429, 5xx, other statuses, timeouts, relay
errors, other exceptions) it returns a result-or-absent plus wait time
without raising, and the concurrency permit count is restored on every
exit path. -/
theorem dispatcher_never_raises_and_releases_slot
    (st : DispatchState) (outcomes : Nat → AttemptOutcome) :
    ((∃ e, rate_limited_request st outcomes = Except.error e) ↔
      st.client.session = none) ∧
    (∀ r, rate_limited_request st outcomes = Except.ok r →
      r.2.2.sem_permits = st.sem_permits) := by
  cases hs : st.client.session with
  | none =>
    constructor
    · constructor
      · intro _
        rfl
      · intro _
        exact ⟨"API client not initialized. Use async context manager.",
          by simp [rate_limited_request, hs]⟩
    · intro r hr
      simp only [rate_limited_request, hs] at hr
      exact Except.noConfusion hr
  | some u =>
    constructor
    · constructor
      · rintro ⟨e, he⟩
        simp only [rate_limited_request, hs] at he
        exact Except.noConfusion he
      · intro h
        exact absurd h (by simp)
    · intro r hr
      simp only [rate_limited_request, hs] at hr
      injection hr with hr
      rw [← hr]
      by_cases hu : st.pm.use_proxies = true
      · simp only [hu, if_pos]
        omega
      · simp only [hu, if_neg]
        simp [hu]

/-- C8 witness: the two-relay 429-then-200 scenario has an established
session, so the call yields a result (no exception) and the permit count
is back at its initial value. -/
theorem dispatcher_never_raises_and_releases_slot_witness :
    ((∃ e, rate_limited_request stTwo outRetry = Except.error e) ↔
      stTwo.client.session = none) ∧
    (∀ r, rate_limited_request stTwo outRetry = Except.ok r →
      r.2.2.sem_permits = stTwo.sem_permits) :=
  dispatcher_never_raises_and_releases_slot stTwo outRetry

theorem lookup_cons_self (k : String) (e : CacheEntry)
    (c : List (String × CacheEntry)) : ((k, e) :: c).lookup k = some e := by
  simp [List.lookup]

theorem lookup_dropKey (c : List (String × CacheEntry)) (k : String) :
    (dropKey c k).lookup k = none := by
  unfold dropKey
  induction c with
  | nil => rfl
  | cons kv rest ih =>
    obtain ⟨k1, v1⟩ := kv
    by_cases h : k1 = k
    · subst h
      simpa [List.filter_cons] using ih
    · have h2 : (k == k1) = false := beq_eq_false_iff_ne.mpr (fun he => h he.symm)
      simp [List.filter_cons, h, List.lookup, h2, ih]

/-- C6: cache round trip — after a first fetch at time `t` stores the
successful payload `d` for key (name, currency), a read at `t'` with
`t' − t` strictly below the TTL returns `d` with wait 0, untouched state
and no network call; a read with `t' − t` at or beyond the TTL consults
the network and its observable outcome (data, wait, network-called) equals
that of the same client with the stale entry physically removed — the
expired entry is treated as absent even while still stored. -/
theorem cache_round_trip (c c1 : SteamClient) (name : String) (currency : Int)
    (t t' : ℚ) (d : PriceData) (w : ℚ) (net' : Option PriceData × ℚ)
    (hsucc : d.success = true)
    (hfirst : get_item_price c name currency t (some d, w) = (some d, w, c1, true)) :
    (t' - t < c1.cache_ttl →
      get_item_price c1 name currency t' net' = (some d, 0, c1, false)) ∧
    (c1.cache_ttl ≤ t' - t →
      (get_item_price c1 name currency t' net').2.2.2 = true ∧
      (get_item_price c1 name currency t' net').1 =
        (get_item_price
          { c1 with cache := dropKey c1.cache (mkCacheKey name currency) }
          name currency t' net').1 ∧
      (get_item_price c1 name currency t' net').2.1 =
        (get_item_price
          { c1 with cache := dropKey c1.cache (mkCacheKey name currency) }
          name currency t' net').2.1) := by
  have h1 : c1 = { c with cache :=
      (mkCacheKey name currency, CacheEntry.mk d t) :: c.cache } := by
    simp only [get_item_price] at hfirst
    cases hl : c.cache.lookup (mkCacheKey name currency) with
    | some entry =>
      rw [hl] at hfirst
      dsimp only at hfirst
      by_cases hf : t - entry.timestamp < c.cache_ttl
      · rw [if_pos hf] at hfirst
        simp at hfirst
      · rw [if_neg hf] at hfirst
        dsimp only at hfirst
        rw [if_pos hsucc] at hfirst
        exact (congrArg (fun r => r.2.2.1) hfirst).symm
    | none =>
      rw [hl] at hfirst
      dsimp only at hfirst
      rw [if_pos hsucc] at hfirst
      exact (congrArg (fun r => r.2.2.1) hfirst).symm
  subst h1
  refine ⟨?_, ?_⟩
  · intro hfr
    dsimp only at hfr
    simp only [get_item_price, lookup_cons_self]
    rw [if_pos hfr]
  · intro hexp
    dsimp only at hexp
    have hnf : ¬ (t' - t < c.cache_ttl) := not_lt.mpr hexp
    simp only [get_item_price, lookup_cons_self, lookup_dropKey]
    rw [if_neg hnf]
    obtain ⟨nd, nw⟩ := net'
    cases nd with
    | none => simp
    | some d2 =>
      by_cases h2 : d2.success = true
      · simp [h2]
      · simp [h2]

/-- C6 witness: store the payload for ("it", 1) at time 0, read again at
time 100 (within the 300-second TTL): the stored payload comes back with
wait 0 and no network call. -/
theorem cache_round_trip_witness :
    ((100 : ℚ) - 0 < cliStored.cache_ttl →
      get_item_price cliStored "it" 1 100 (none, 0) =
        (some dOk, 0, cliStored, false)) ∧
    (cliStored.cache_ttl ≤ (100 : ℚ) - 0 →
      (get_item_price cliStored "it" 1 100 (none, 0)).2.2.2 = true ∧
      (get_item_price cliStored "it" 1 100 (none, 0)).1 =
        (get_item_price
          { cliStored with cache := dropKey cliStored.cache (mkCacheKey "it" 1) }
          "it" 1 100 (none, 0)).1 ∧
      (get_item_price cliStored "it" 1 100 (none, 0)).2.1 =
        (get_item_price
          { cliStored with cache := dropKey cliStored.cache (mkCacheKey "it" 1) }
          "it" 1 100 (none, 0)).2.1) :=
  cache_round_trip cliEmpty cliStored "it" 1 0 100 dOk 0 (none, 0) rfl rfl

theorem enumHealthy_map_snd (ps : List ProxyInfo) :
    ∀ i, (enumHealthy i ps).map Prod.snd = ps.filter (fun p => p.is_healthy) := by
  induction ps with
  | nil => intro i; rfl
  | cons p rest ih =>
    intro i
    by_cases h : p.is_healthy = true <;> simp [enumHealthy, List.filter_cons, h, ih]

theorem enumHealthy_length (ps : List ProxyInfo) (i : Nat) :
    (enumHealthy i ps).length = (ps.filter (fun p => p.is_healthy)).length := by
  rw [← enumHealthy_map_snd ps i, List.length_map]

theorem enumHealthy_isEmpty (ps : List ProxyInfo) (i : Nat) :
    (enumHealthy i ps).isEmpty = (ps.filter (fun p => p.is_healthy)).isEmpty := by
  cases he : enumHealthy i ps with
  | nil =>
    cases hf : ps.filter (fun p => p.is_healthy) with
    | nil => rfl
    | cons a l =>
      have hlen := enumHealthy_length ps i
      rw [he, hf] at hlen
      simp at hlen
  | cons b m =>
    cases hf : ps.filter (fun p => p.is_healthy) with
    | nil =>
      have hlen := enumHealthy_length ps i
      rw [he, hf] at hlen
      simp at hlen
    | cons a l => rfl

theorem get_current_proxy_pair_fst (m : ProxyManager) :
    ((get_current_proxy_pair m).1.map Prod.snd, (get_current_proxy_pair m).2) =
      get_current_proxy m := by
  simp only [get_current_proxy_pair, get_current_proxy]
  by_cases h1 : (!m.use_proxies || m.proxies.isEmpty) = true
  · rw [if_pos h1, if_pos h1]
    rfl
  · rw [if_neg h1, if_neg h1]
    have hie := enumHealthy_isEmpty m.proxies 0
    have hlen := enumHealthy_length m.proxies 0
    by_cases h2 : (m.proxies.filter (fun p => p.is_healthy)).isEmpty = true
    · rw [if_pos h2, if_pos (hie.trans h2)]
      rfl
    · rw [if_neg h2, if_neg (fun hc => h2 (hie.symm.trans hc))]
      rw [hlen]
      by_cases h3 : (m.proxies.filter (fun p => p.is_healthy)).length ≤
          m.current_proxy_index
      · rw [if_pos h3]
        dsimp only
        rw [Prod.mk.injEq]
        refine ⟨?_, rfl⟩
        rw [← List.get?_map, enumHealthy_map_snd]
      · rw [if_neg h3]
        dsimp only
        rw [Prod.mk.injEq]
        refine ⟨?_, rfl⟩
        rw [← List.get?_map, enumHealthy_map_snd]
